import Mathlib

/-!
# Verification of the asteroid-analysis ingestion and table-build pipeline

Shallow embedding, in Lean 4, of the core functions of the repository
(`src/asteroid_analysis/ingest.py` and `src/asteroid_analysis/build.py`),
together with proofs of the specified properties.

Modelling conventions:
* calendar dates are integers (day numbers); `timedelta(days = k)` is `+ k`;
* Python `None` / `pd.NA` / `NaN` cells are `Option` values;
* a decoded JSON document is a `PyVal` tree; `json.loads` of a cache file is
  an `Except String PyVal` (decode error message, or the decoded document);
* fallible Python functions return `Except String _` (the raised message) or
  an `Option` result, matching the source's exception flow;
* floating-point numbers are idealised as real numbers (`ℝ`) where a claim is
  about their mathematical value, and kept abstract otherwise.
-/

namespace AsteroidAnalysis

/-! ## `ingest.chunk_date_ranges`

Source (`ingest.py`):
```
def chunk_date_ranges(start_date, end_date, days=7):
    current = start_date
    while current <= end_date:
        chunk_end = min(current + timedelta(days=days - 1), end_date)
        yield current, chunk_end
        current = chunk_end + timedelta(days=1)
```
The generator is total only for `days ≥ 1` (claim C10); the finite list of
yielded windows is defined below under that guard, and the loop's state
update is modelled separately by `chunkNext` so that the behaviour for
`days ≤ 0` can also be analysed.
-/

/-- One iteration of the `chunk_date_ranges` loop: from the current window
start, the next window start is `min(current + days - 1, end_d) + 1`. -/
def chunkNext (end_d days current : ℤ) : ℤ :=
  min (current + days - 1) end_d + 1

/-- The list of `(window_start, window_end)` pairs yielded by
`chunk_date_ranges(current, end_d, days)`.  The guard `1 ≤ days` reflects
that the Python generator terminates only in that case (claim C10); for
`days ≤ 0` the generator never terminates, so no finite value exists. -/
def chunkDateRanges (current end_d days : ℤ) : List (ℤ × ℤ) :=
  if h : 1 ≤ days ∧ current ≤ end_d then
    (current, min (current + days - 1) end_d) ::
      chunkDateRanges (min (current + days - 1) end_d + 1) end_d days
  else []
  termination_by (end_d + 1 - current).toNat
  decreasing_by
    simp_wf
    omega

theorem chunkDateRanges_eq_nil {current end_d days : ℤ}
    (h : ¬(1 ≤ days ∧ current ≤ end_d)) :
    chunkDateRanges current end_d days = [] := by
  rw [chunkDateRanges]
  simp [h]

theorem chunkDateRanges_eq_cons {current end_d days : ℤ}
    (hd : 1 ≤ days) (hle : current ≤ end_d) :
    chunkDateRanges current end_d days =
      (current, min (current + days - 1) end_d) ::
        chunkDateRanges (min (current + days - 1) end_d + 1) end_d days := by
  rw [chunkDateRanges]
  simp [hd, hle]

/-- Every yielded window starts no earlier than the loop's current start,
ends at `min (start + days - 1) end_d`, is non-degenerate, and stays within
the requested range. -/
theorem chunk_mem_spec (current end_d days : ℤ) (hd : 1 ≤ days) :
    ∀ w ∈ chunkDateRanges current end_d days,
      current ≤ w.1 ∧ w.2 = min (w.1 + days - 1) end_d ∧
        w.1 ≤ w.2 ∧ w.2 ≤ end_d := by
  induction current, end_d, days using chunkDateRanges.induct with
  | case1 current end_d days h ih =>
    rw [chunkDateRanges_eq_cons h.1 h.2]
    intro w hw
    rcases List.mem_cons.1 hw with hw | hw
    · subst hw
      refine ⟨le_refl _, rfl, ?_, ?_⟩ <;> omega
    · obtain ⟨h1, h2, h3, h4⟩ := ih h.1 w hw
      exact ⟨by omega, h2, h3, h4⟩
  | case2 current end_d days h =>
    rw [chunkDateRanges_eq_nil h]
    intro w hw
    simp at hw

/-- The first window starts exactly at the requested start date. -/
theorem chunk_head (current end_d days : ℤ) (hd : 1 ≤ days)
    (hle : current ≤ end_d) :
    (chunkDateRanges current end_d days).head? =
      some (current, min (current + days - 1) end_d) := by
  rw [chunkDateRanges_eq_cons hd hle]
  rfl

/-- The last window ends exactly at the requested end date. -/
theorem chunk_last (current end_d days : ℤ) (hd : 1 ≤ days)
    (hle : current ≤ end_d) :
    ∃ w, (chunkDateRanges current end_d days).getLast? = some w ∧
      w.2 = end_d := by
  induction current, end_d, days using chunkDateRanges.induct with
  | case1 current end_d days h ih =>
    rw [chunkDateRanges_eq_cons h.1 h.2]
    by_cases hnext : min (current + days - 1) end_d + 1 ≤ end_d
    · obtain ⟨w, hw, hw2⟩ := ih h.1 hnext
      refine ⟨w, ?_, hw2⟩
      rw [List.getLast?_cons]
      have hne : chunkDateRanges (min (current + days - 1) end_d + 1) end_d days ≠ [] := by
        rw [chunkDateRanges_eq_cons h.1 hnext]
        simp
      rw [List.getLast?_eq_getLast _ hne] at hw ⊢
      simpa using hw
    · have hnil : chunkDateRanges (min (current + days - 1) end_d + 1) end_d days = [] :=
        chunkDateRanges_eq_nil (by omega)
      rw [hnil]
      refine ⟨(current, min (current + days - 1) end_d), rfl, ?_⟩
      omega
  | case2 current end_d days h =>
    exact absurd ⟨hd, hle⟩ h

/-- Adjacent windows are consecutive (the next starts the day after the
previous ends), and every window that is followed by another has length
exactly `days`. -/
theorem chunk_chain (current end_d days : ℤ) (hd : 1 ≤ days) :
    List.Chain' (fun a b => b.1 = a.2 + 1 ∧ a.2 = a.1 + days - 1)
      (chunkDateRanges current end_d days) := by
  induction current, end_d, days using chunkDateRanges.induct with
  | case1 current end_d days h ih =>
    rw [chunkDateRanges_eq_cons h.1 h.2]
    rw [List.chain'_cons']
    refine ⟨?_, ih h.1⟩
    intro y hy
    by_cases hnext : min (current + days - 1) end_d + 1 ≤ end_d
    · rw [chunk_head _ _ _ h.1 hnext] at hy
      simp only [Option.mem_def, Option.some.injEq] at hy
      subst hy
      constructor
      · rfl
      · omega
    · rw [chunkDateRanges_eq_nil (by omega)] at hy
      simp at hy
  | case2 current end_d days h =>
    rw [chunkDateRanges_eq_nil h]
    exact List.chain'_nil

/-- Windows are pairwise non-overlapping: any earlier window ends strictly
before any later window starts. -/
theorem chunk_pairwise (current end_d days : ℤ) (hd : 1 ≤ days) :
    List.Pairwise (fun a b => a.2 < b.1)
      (chunkDateRanges current end_d days) := by
  induction current, end_d, days using chunkDateRanges.induct with
  | case1 current end_d days h ih =>
    rw [chunkDateRanges_eq_cons h.1 h.2]
    refine List.pairwise_cons.2 ⟨?_, ih h.1⟩
    intro b hb
    have := (chunk_mem_spec _ _ _ h.1 b hb).1
    omega
  | case2 current end_d days h =>
    rw [chunkDateRanges_eq_nil h]
    exact List.Pairwise.nil

/-- The windows exactly cover the inclusive range `[current, end_d]`:
a day is inside some window iff it lies in the range. -/
theorem chunk_cover (current end_d days : ℤ) (hd : 1 ≤ days) :
    ∀ x : ℤ, (current ≤ x ∧ x ≤ end_d) ↔
      ∃ w ∈ chunkDateRanges current end_d days, w.1 ≤ x ∧ x ≤ w.2 := by
  induction current, end_d, days using chunkDateRanges.induct with
  | case1 current end_d days h ih =>
    intro x
    constructor
    · rintro ⟨hx1, hx2⟩
      by_cases hco : x ≤ min (current + days - 1) end_d
      · exact ⟨(current, min (current + days - 1) end_d),
          by rw [chunkDateRanges_eq_cons h.1 h.2]; exact List.mem_cons_self _ _,
          hx1, hco⟩
      · obtain ⟨w, hw, hwx⟩ := (ih h.1 x).1 ⟨by omega, hx2⟩
        exact ⟨w, by rw [chunkDateRanges_eq_cons h.1 h.2]; exact List.mem_cons_of_mem _ hw, hwx⟩
    · rintro ⟨w, hw, hx1, hx2⟩
      obtain ⟨h1, _, _, h4⟩ := chunk_mem_spec _ _ _ h.1 w hw
      exact ⟨by omega, by omega⟩
  | case2 current end_d days h =>
    intro x
    rw [chunkDateRanges_eq_nil h]
    simp only [List.not_mem_nil, false_and, exists_false, iff_false, not_and]
    intro hx
    omega

/-- The recursive unfolding of `chunkDateRanges` advances the loop state by
exactly `chunkNext`. -/
theorem chunkDateRanges_next {current end_d days : ℤ}
    (hd : 1 ≤ days) (hle : current ≤ end_d) :
    chunkDateRanges current end_d days =
      (current, min (current + days - 1) end_d) ::
        chunkDateRanges (chunkNext end_d days current) end_d days :=
  chunkDateRanges_eq_cons hd hle

/-- Concrete evaluation: the range Jan 1 – Jan 8 (days 1..8) with a 7-day
window yields the windows [1,7] and [8,8]. -/
theorem chunkDateRanges_example : chunkDateRanges 1 8 7 = [(1, 7), (8, 8)] := by
  rw [chunkDateRanges_eq_cons (by norm_num) (by norm_num)]
  norm_num
  rw [chunkDateRanges_eq_cons (by norm_num) (by norm_num)]
  norm_num
  exact chunkDateRanges_eq_nil (by norm_num)

/-- Claim C2: for every start `s ≤ e` and window size `d ≥ 1`,
`chunk_date_ranges(s, e, d)` yields a sequence of inclusive windows that
(1) starts at `s`, (2) ends at `e`, (3) is consecutive with every non-final
window of length exactly `d` days, (4) has every window non-degenerate, of
length at most `d`, and inside the range, (5) is pairwise non-overlapping,
and (6) covers exactly the days of `[s, e]` with no gaps. -/
theorem chunk_date_ranges_partition (s e d : ℤ) (hd : 1 ≤ d) (hse : s ≤ e) :
    (chunkDateRanges s e d).head? = some (s, min (s + d - 1) e) ∧
    (∃ w, (chunkDateRanges s e d).getLast? = some w ∧ w.2 = e) ∧
    List.Chain' (fun a b => b.1 = a.2 + 1 ∧ a.2 = a.1 + d - 1)
      (chunkDateRanges s e d) ∧
    (∀ w ∈ chunkDateRanges s e d, w.1 ≤ w.2 ∧ w.2 - w.1 + 1 ≤ d ∧ w.2 ≤ e) ∧
    List.Pairwise (fun a b => a.2 < b.1) (chunkDateRanges s e d) ∧
    (∀ x : ℤ, (s ≤ x ∧ x ≤ e) ↔
      ∃ w ∈ chunkDateRanges s e d, w.1 ≤ x ∧ x ≤ w.2) := by
  refine ⟨chunk_head s e d hd hse, chunk_last s e d hd hse,
    chunk_chain s e d hd, ?_, chunk_pairwise s e d hd, chunk_cover s e d hd⟩
  intro w hw
  obtain ⟨h1, h2, h3, h4⟩ := chunk_mem_spec s e d hd w hw
  refine ⟨h3, by omega, h4⟩

/-- Witness for claim C2, at the spec's own example `s = 1`, `e = 8`,
`d = 7` (Jan 1 – Jan 8 with a 7-day window). -/
theorem chunk_date_ranges_partition_witness :
    (1 : ℤ) ≤ 7 ∧ (1 : ℤ) ≤ 8 ∧
    ((chunkDateRanges 1 8 7).head? = some (1, min (1 + 7 - 1) 8) ∧
      (∀ x : ℤ, (1 ≤ x ∧ x ≤ 8) ↔
        ∃ w ∈ chunkDateRanges 1 8 7, w.1 ≤ x ∧ x ≤ w.2)) := by
  refine ⟨by norm_num, by norm_num, ?_, ?_⟩
  · exact (chunk_date_ranges_partition 1 8 7 (by norm_num) (by norm_num)).1
  · exact (chunk_date_ranges_partition 1 8 7 (by norm_num) (by norm_num)).2.2.2.2.2

/-- Claim C10: the `chunk_date_ranges` loop terminates for every window size
`days ≥ 1` (the loop guard `current ≤ end_d` fails after finitely many
iterations of the state update `chunkNext`), and the precondition `days ≥ 1`
is necessary: for `days ≤ 0` and any non-empty range the guard holds at
every iteration, so the generator never terminates. -/
theorem chunk_date_ranges_termination (s e d : ℤ) :
    (1 ≤ d → ∃ n : ℕ, e < (chunkNext e d)^[n] s) ∧
    (d ≤ 0 → s ≤ e → ∀ n : ℕ, (chunkNext e d)^[n] s ≤ e) := by
  constructor
  · intro hd
    have H : ∀ m : ℕ, ∀ t : ℤ, (e + 1 - t).toNat ≤ m →
        ∃ n : ℕ, e < (chunkNext e d)^[n] t := by
      intro m
      induction m with
      | zero =>
        intro t ht
        refine ⟨0, ?_⟩
        simp only [Function.iterate_zero, id_eq]
        omega
      | succ m ih =>
        intro t ht
        by_cases hte : e < t
        · exact ⟨0, by simpa using hte⟩
        · obtain ⟨n, hn⟩ := ih (chunkNext e d t) (by unfold chunkNext; omega)
          exact ⟨n + 1, by rw [Function.iterate_succ_apply]; exact hn⟩
    exact H (e + 1 - s).toNat s le_rfl
  · intro hd hse n
    induction n with
    | zero => simpa using hse
    | succ n ih =>
      rw [Function.iterate_succ_apply']
      generalize (chunkNext e d)^[n] s = t at ih ⊢
      unfold chunkNext
      omega

/-- Witness for claim C10: with window size 7 the loop leaves the range
1..8 after some number of steps; with window size 0 it never does. -/
theorem chunk_date_ranges_termination_witness :
    (∃ n : ℕ, (8 : ℤ) < (chunkNext 8 7)^[n] 1) ∧
    (∀ n : ℕ, (chunkNext 8 0)^[n] 1 ≤ 8) :=
  ⟨(chunk_date_ranges_termination 1 8 7).1 (by norm_num),
   (chunk_date_ranges_termination 1 8 0).2 (by norm_num) (by norm_num)⟩

/-! ## Decoded JSON documents

A decoded Python/JSON document (the result of `response.json()` or
`json.loads`), as traversed by `ingest.py`. -/

inductive PyVal where
  | none
  | bool (b : Bool)
  | num (n : ℤ)
  | str (s : String)
  | list (xs : List PyVal)
  | dict (entries : List (String × PyVal))

/-! ## `ingest.fetch_chunk`

Source (`ingest.py`):
```
def fetch_chunk(session, start_date, end_date, api_key):
    params = {...}
    max_retries = 5
    for attempt in range(max_retries + 1):
        try:
            response = session.get(FEED_URL, params=params, timeout=30)
        except requests.RequestException as exc:
            if attempt == max_retries:
                raise RuntimeError(f"Request error: {exc}") from exc
            time.sleep(2**attempt)
            continue
        if response.status_code == 200:
            return response.json()
        if response.status_code == 429 or 500 <= response.status_code < 600:
            if attempt == max_retries:
                raise RuntimeError(f"API error {response.status_code}: {response.text}")
            time.sleep(2**attempt)
            continue
        raise RuntimeError(f"API error {response.status_code}: {response.text}")
```
The network is modelled as a function from the attempt number to the outcome
of that attempt: either a raised `requests.RequestException` or an HTTP
response with a status code, a body text and a decoded JSON payload.  The
result is the returned payload or the raised error message, paired with the
list of back-off sleeps (in seconds) performed along the way. -/

inductive HttpAttempt where
  | exc (msg : String)
  | response (status : ℕ) (body : String) (payload : PyVal)

/-- Classification used by the retry loop: raised request exceptions,
HTTP 429 and HTTP 5xx are transient; everything else is not. -/
def isTransient : HttpAttempt → Bool
  | .exc _ => true
  | .response status _ _ => status == 429 || (500 ≤ status && status < 600)

/-- The error message `fetch_chunk` raises for a given final attempt. -/
def attemptErrorMsg : HttpAttempt → String
  | .exc m => "Request error: " ++ m
  | .response status body _ => "API error " ++ toString status ++ ": " ++ body

/-- The `fetch_chunk` retry loop from a given attempt number.  `5 ≤ attempt`
is the `attempt == max_retries` test of the source (the loop only reaches
attempts 0..5, on which the two coincide).  Returns the loop's outcome and
the list of back-off sleeps performed. -/
def fetchChunkFrom (responses : ℕ → HttpAttempt) (attempt : ℕ) :
    Except String PyVal × List ℕ :=
  match responses attempt with
  | .exc msg =>
      if h : 5 ≤ attempt then (.error ("Request error: " ++ msg), [])
      else
        let r := fetchChunkFrom responses (attempt + 1)
        (r.1, 2 ^ attempt :: r.2)
  | .response status body payload =>
      if status = 200 then (.ok payload, [])
      else if status = 429 ∨ (500 ≤ status ∧ status < 600) then
        if h : 5 ≤ attempt then
          (.error ("API error " ++ toString status ++ ": " ++ body), [])
        else
          let r := fetchChunkFrom responses (attempt + 1)
          (r.1, 2 ^ attempt :: r.2)
      else (.error ("API error " ++ toString status ++ ": " ++ body), [])
  termination_by 6 - attempt
  decreasing_by
    · omega
    · omega

/-- `fetch_chunk` starts its retry loop at attempt 0. -/
def fetchChunk (responses : ℕ → HttpAttempt) : Except String PyVal × List ℕ :=
  fetchChunkFrom responses 0

theorem fetchChunkFrom_200 {responses : ℕ → HttpAttempt} {attempt : ℕ}
    {body : String} {p : PyVal}
    (h : responses attempt = .response 200 body p) :
    fetchChunkFrom responses attempt = (.ok p, []) := by
  rw [fetchChunkFrom, h]
  dsimp only
  rw [if_pos rfl]

theorem fetchChunkFrom_transient_retry {responses : ℕ → HttpAttempt}
    {attempt : ℕ} (hlt : attempt < 5)
    (htr : isTransient (responses attempt) = true) :
    fetchChunkFrom responses attempt =
      ((fetchChunkFrom responses (attempt + 1)).1,
        2 ^ attempt :: (fetchChunkFrom responses (attempt + 1)).2) := by
  rw [fetchChunkFrom]
  rcases hr : responses attempt with msg | ⟨status, body, p⟩
  · dsimp only
    rw [dif_neg (by omega : ¬ 5 ≤ attempt)]
  · rw [hr] at htr
    simp only [isTransient, Bool.or_eq_true, beq_iff_eq, Bool.and_eq_true,
      decide_eq_true_eq] at htr
    have h200 : status ≠ 200 := by omega
    dsimp only
    rw [if_neg h200, if_pos htr, dif_neg (by omega : ¬ 5 ≤ attempt)]

theorem fetchChunkFrom_exhausted {responses : ℕ → HttpAttempt}
    (htr : isTransient (responses 5) = true) :
    fetchChunkFrom responses 5 = (.error (attemptErrorMsg (responses 5)), []) := by
  rw [fetchChunkFrom]
  rcases hr : responses 5 with msg | ⟨status, body, p⟩
  · dsimp only
    rw [dif_pos (le_refl 5)]
    simp [attemptErrorMsg]
  · rw [hr] at htr
    simp only [isTransient, Bool.or_eq_true, beq_iff_eq, Bool.and_eq_true,
      decide_eq_true_eq] at htr
    have h200 : status ≠ 200 := by omega
    dsimp only
    rw [if_neg h200, if_pos htr, dif_pos (le_refl 5)]
    simp [attemptErrorMsg]

theorem fetchChunkFrom_fatal {responses : ℕ → HttpAttempt} {attempt : ℕ}
    {status : ℕ} {body : String} {p : PyVal}
    (hr : responses attempt = .response status body p)
    (h200 : status ≠ 200)
    (htr : ¬(status = 429 ∨ (500 ≤ status ∧ status < 600))) :
    fetchChunkFrom responses attempt =
      (.error ("API error " ++ toString status ++ ": " ++ body), []) := by
  rw [fetchChunkFrom, hr]
  dsimp only
  rw [if_neg h200, if_neg htr]

theorem fetchChunkFrom_run_to_200 (responses : ℕ → HttpAttempt)
    {n : ℕ} (hn : n ≤ 5)
    (htr : ∀ i, i < n → isTransient (responses i) = true)
    {body : String} {p : PyVal} (h200 : responses n = .response 200 body p) :
    ∀ k attempt, attempt + k = n →
      fetchChunkFrom responses attempt =
        (.ok p, (List.range' attempt k).map (2 ^ ·)) := by
  intro k
  induction k with
  | zero =>
    intro attempt hsum
    have : attempt = n := by omega
    subst this
    simpa using fetchChunkFrom_200 h200
  | succ k ih =>
    intro attempt hsum
    have hlt : attempt < n := by omega
    rw [fetchChunkFrom_transient_retry (by omega) (htr attempt hlt),
      ih (attempt + 1) (by omega)]
    simp [List.range']

theorem fetchChunkFrom_run_exhausted (responses : ℕ → HttpAttempt)
    (htr : ∀ i, i ≤ 5 → isTransient (responses i) = true) :
    ∀ k attempt, attempt + k = 5 →
      fetchChunkFrom responses attempt =
        (.error (attemptErrorMsg (responses 5)),
          (List.range' attempt k).map (2 ^ ·)) := by
  intro k
  induction k with
  | zero =>
    intro attempt hsum
    have : attempt = 5 := by omega
    subst this
    simpa using fetchChunkFrom_exhausted (htr 5 le_rfl)
  | succ k ih =>
    intro attempt hsum
    rw [fetchChunkFrom_transient_retry (by omega) (htr attempt (by omega)),
      ih (attempt + 1) (by omega)]
    simp [List.range']

/-- Claim C4 (amended): the fetcher classifies raised request exceptions,
HTTP 429 and HTTP 5xx as transient and retries them up to 5 additional
times with exponential back-off (sleeping `2^attempt` seconds, so the base
delay of 1s doubles on each attempt) before propagating a hard failure;
a **200** response is a success returning the decoded payload; any other
status — including non-200 2xx statuses — is fatal and propagates
immediately with no retry and no sleep. -/
theorem fetch_chunk_retry_policy (responses : ℕ → HttpAttempt) :
    (∀ n, n ≤ 5 → (∀ i, i < n → isTransient (responses i) = true) →
      ∀ body p, responses n = .response 200 body p →
        fetchChunk responses = (.ok p, (List.range n).map (2 ^ ·))) ∧
    ((∀ i, i ≤ 5 → isTransient (responses i) = true) →
      fetchChunk responses =
        (.error (attemptErrorMsg (responses 5)), (List.range 5).map (2 ^ ·))) ∧
    (∀ status body p, responses 0 = .response status body p → status ≠ 200 →
      isTransient (responses 0) = false →
      fetchChunk responses =
        (.error ("API error " ++ toString status ++ ": " ++ body), [])) := by
  refine ⟨?_, ?_, ?_⟩
  · intro n hn htr body p h200
    have := fetchChunkFrom_run_to_200 responses hn htr h200 n 0 (by omega)
    rw [fetchChunk, this, List.range'_eq_map_range]
    simp
  · intro htr
    have := fetchChunkFrom_run_exhausted responses htr 5 0 (by omega)
    rw [fetchChunk, this, List.range'_eq_map_range]
    simp
  · intro status body p hr h200 htr
    rw [hr] at htr
    refine fetchChunkFrom_fatal hr h200 ?_
    intro hcon
    have htrue : isTransient (HttpAttempt.response status body p) = true := by
      simp only [isTransient, Bool.or_eq_true, beq_iff_eq, Bool.and_eq_true,
        decide_eq_true_eq]
      exact hcon
    rw [htrue] at htr
    simp at htr

/-- Counterexample to claim C4 as stated: a non-200 2xx status (201) is
**not** a success — the code raises a fatal error immediately, because the
success test is `status_code == 200`, not "any 2xx". -/
theorem fetch_chunk_2xx_not_success :
    ((200 : ℕ) ≤ 201 ∧ (201 : ℕ) < 300) ∧
    fetchChunk (fun _ => .response 201 "Created" (PyVal.dict [])) =
      (.error "API error 201: Created", []) := by
  refine ⟨⟨by norm_num, by norm_num⟩, ?_⟩
  exact @fetchChunkFrom_fatal (fun _ => .response 201 "Created" (PyVal.dict [])) 0
    201 "Created" (PyVal.dict []) rfl (by norm_num) (by omega)

/-- Witness for claim C4 (amended): two 503 responses followed by a 200
succeed after back-off sleeps of 1 and 2 seconds; and a 404 on the first
attempt fails immediately with no sleeps. -/
theorem fetch_chunk_retry_policy_witness :
    (∀ i, i < 2 → isTransient
      ((fun i => if i < 2 then HttpAttempt.response 503 "oops" PyVal.none
        else HttpAttempt.response 200 "ok" (PyVal.dict [])) i) = true) ∧
    fetchChunk (fun i => if i < 2 then HttpAttempt.response 503 "oops" PyVal.none
        else HttpAttempt.response 200 "ok" (PyVal.dict [])) =
      (.ok (PyVal.dict []), [1, 2]) ∧
    fetchChunk (fun _ => HttpAttempt.response 404 "gone" PyVal.none) =
      (.error "API error 404: gone", []) := by
  refine ⟨by decide, ?_, ?_⟩
  · have h := (fetch_chunk_retry_policy
      (fun i => if i < 2 then HttpAttempt.response 503 "oops" PyVal.none
        else HttpAttempt.response 200 "ok" (PyVal.dict []))).1
      2 (by norm_num) (by decide) "ok" (PyVal.dict []) (by norm_num)
    simpa using h
  · exact (fetch_chunk_retry_policy
      (fun _ => HttpAttempt.response 404 "gone" PyVal.none)).2.2
      404 "gone" PyVal.none rfl (by norm_num) (by decide)

/-! ## `ingest._validate_payload`, `_read_cache_payload`, `fetch_or_load_chunk`

Source (`ingest.py`):
```
def _validate_payload(payload):
    if not isinstance(payload, dict):
        raise ValueError("Invalid payload type")
    if "near_earth_objects" not in payload or not isinstance(
        payload.get("near_earth_objects"), dict
    ):
        raise ValueError("Missing or invalid near_earth_objects")
```
Raising `ValueError(msg)` is modelled as returning `some msg`; success is
`Option.none`. -/

/-- Payload validator: the decoded document must be a mapping holding a
`near_earth_objects` key whose value is itself a mapping. -/
def validatePayload : PyVal → Option String
  | .dict entries =>
      match entries.lookup "near_earth_objects" with
      | some (.dict _) => Option.none
      | _ => some "Missing or invalid near_earth_objects"
  | _ => some "Invalid payload type"

/-- One appended row of `failures.csv`: `(start_date, end_date, error)`. -/
structure FailureRecord where
  start_date : ℤ
  end_date : ℤ
  error : String
deriving DecidableEq

/-- `_read_cache_payload`: `json.loads` of the cache file is modelled by its
result `content` (decode-error message, or the decoded document).  Returns
the validated payload (or `none`) together with the failure rows appended
to the failure log. -/
def readCachePayload (cachePath : String) (s e : ℤ)
    (content : Except String PyVal) : Option PyVal × List FailureRecord :=
  match content with
  | .error exc =>
      (Option.none, [⟨s, e, "Corrupt cache JSON " ++ cachePath ++ ": " ++ exc⟩])
  | .ok payload =>
      match validatePayload payload with
      | some exc =>
          (Option.none, [⟨s, e, "Invalid cache schema " ++ cachePath ++ ": " ++ exc⟩])
      | Option.none => (some payload, [])

/-- The code of `fetch_or_load_chunk` that runs after the cache check: call
the fetcher, validate the result, atomically persist on success; on any
raised error append one failure row and return `None`.  `failures` is the
failure log accumulated so far in this call.  Returns (result, failure rows
appended by this call, cache content after the call). -/
def fetchAndStore (s e : ℤ) (cache : Option (Except String PyVal))
    (fetchResult : Except String PyVal) (failures : List FailureRecord) :
    Option PyVal × List FailureRecord × Option (Except String PyVal) :=
  match fetchResult with
  | .error exc => (Option.none, failures ++ [⟨s, e, exc⟩], cache)
  | .ok payload =>
      match validatePayload payload with
      | some exc => (Option.none, failures ++ [⟨s, e, exc⟩], cache)
      | Option.none => (some payload, failures, some (.ok payload))

/-- `fetch_or_load_chunk`: the cache entry for the window is `cache`
(`none` = no file; `some content` = a file whose `json.loads` gives
`content`); `fetchResult` is what `fetcher(...)` would produce if invoked.
A `some` result models returning `cache_path` (success); `Option.none`
models returning Python `None`. -/
def fetchOrLoadChunk (cachePath : String) (s e : ℤ)
    (cache : Option (Except String PyVal)) (refresh : Bool)
    (fetchResult : Except String PyVal) :
    Option PyVal × List FailureRecord × Option (Except String PyVal) :=
  match cache, refresh with
  | some content, false =>
      match readCachePayload cachePath s e content with
      | (some payload, _) => (some payload, [], cache)
      | (Option.none, failures) => fetchAndStore s e cache fetchResult failures
  | _, _ => fetchAndStore s e cache fetchResult []

/-- Claim C3: with `refresh` false and a cache entry present, a valid entry
is returned without fetching and with no failure logged; an undecodable or
schema-invalid entry logs exactly one failure row (with the corresponding
error text) and falls through to a fresh fetch; a failed fetch, or a fetched
payload that fails validation, appends one failure row carrying the error
text and returns `None` rather than raising. -/
theorem fetch_or_load_chunk_policy (cachePath : String) (s e : ℤ)
    (fetchResult : Except String PyVal) :
    (∀ p, validatePayload p = Option.none →
      fetchOrLoadChunk cachePath s e (some (.ok p)) false fetchResult =
        (some p, [], some (.ok p))) ∧
    (∀ m, fetchOrLoadChunk cachePath s e (some (.error m)) false fetchResult =
      fetchAndStore s e (some (.error m)) fetchResult
        [⟨s, e, "Corrupt cache JSON " ++ cachePath ++ ": " ++ m⟩]) ∧
    (∀ p msg, validatePayload p = some msg →
      fetchOrLoadChunk cachePath s e (some (.ok p)) false fetchResult =
        fetchAndStore s e (some (.ok p)) fetchResult
          [⟨s, e, "Invalid cache schema " ++ cachePath ++ ": " ++ msg⟩]) ∧
    (∀ cache failures m, fetchResult = .error m →
      fetchAndStore s e cache fetchResult failures =
        (Option.none, failures ++ [⟨s, e, m⟩], cache)) ∧
    (∀ cache failures p msg, fetchResult = .ok p → validatePayload p = some msg →
      fetchAndStore s e cache fetchResult failures =
        (Option.none, failures ++ [⟨s, e, msg⟩], cache)) ∧
    (∀ cache, fetchOrLoadChunk cachePath s e cache true fetchResult =
      fetchAndStore s e cache fetchResult []) ∧
    (∀ refresh, fetchOrLoadChunk cachePath s e Option.none refresh fetchResult =
      fetchAndStore s e Option.none fetchResult []) := by
  refine ⟨?_, ?_, ?_, ?_, ?_, ?_, ?_⟩
  · intro p hp
    simp [fetchOrLoadChunk, readCachePayload, hp]
  · intro m
    simp [fetchOrLoadChunk, readCachePayload]
  · intro p msg hp
    simp [fetchOrLoadChunk, readCachePayload, hp]
  · intro cache failures m hm
    simp [fetchAndStore, hm]
  · intro cache failures p msg hp hmsg
    simp [fetchAndStore, hp, hmsg]
  · intro cache
    cases cache <;> rfl
  · intro refresh
    cases refresh <;> rfl

/-- Witness for claim C3 on concrete data: a valid cache entry is returned
as-is; a corrupt entry logs one failure and the (successful) fresh fetch
then returns the fetched payload with exactly that one failure row; a
missing cache entry plus a failing fetch yields `None` and one failure row
carrying the fetch error text. -/
theorem fetch_or_load_chunk_policy_witness :
    fetchOrLoadChunk "feed_0_6.json" 0 6
      (some (.ok (PyVal.dict [("near_earth_objects", PyVal.dict [])])))
      false (.error "boom") =
      (some (PyVal.dict [("near_earth_objects", PyVal.dict [])]), [],
        some (.ok (PyVal.dict [("near_earth_objects", PyVal.dict [])]))) ∧
    fetchOrLoadChunk "feed_0_6.json" 0 6 (some (.error "bad json")) false
      (.ok (PyVal.dict [("near_earth_objects", PyVal.dict [])])) =
      (some (PyVal.dict [("near_earth_objects", PyVal.dict [])]),
        [⟨0, 6, "Corrupt cache JSON feed_0_6.json: bad json"⟩],
        some (.ok (PyVal.dict [("near_earth_objects", PyVal.dict [])]))) ∧
    fetchOrLoadChunk "feed_0_6.json" 0 6 Option.none false (.error "boom") =
      (Option.none, [⟨0, 6, "boom"⟩], Option.none) := by
  refine ⟨?_, ?_, ?_⟩
  · exact (fetch_or_load_chunk_policy "feed_0_6.json" 0 6 (.error "boom")).1
      (PyVal.dict [("near_earth_objects", PyVal.dict [])]) rfl
  · have h := (fetch_or_load_chunk_policy "feed_0_6.json" 0 6
      (.ok (PyVal.dict [("near_earth_objects", PyVal.dict [])]))).2.1 "bad json"
    rw [h]
    rfl
  · have h := (fetch_or_load_chunk_policy "feed_0_6.json" 0 6
      (.error "boom")).2.2.2.2.2.2 false
    rw [h]
    exact (fetch_or_load_chunk_policy "feed_0_6.json" 0 6
      (.error "boom")).2.2.2.1 Option.none [] "boom" rfl

/-! ## `build._safe_log10` and the derived diameter columns

Source (`build.py`):
```
def _safe_log10(series):
    def to_log(value):
        if pd.isna(value) or value <= 0:
            return pd.NA
        return math.log10(value)
    return series.apply(to_log)
```
and, inside `process_dataframe`:
```
df["diameter_mid_km"] = (df["diameter_km_min"] + df["diameter_km_max"]) / 2
df["diameter_uncertainty_ratio_km"] = (
    (df["diameter_km_max"] - df["diameter_km_min"]) / df["diameter_mid_km"]
)
df.loc[df["diameter_mid_km"] == 0, "diameter_uncertainty_ratio_km"] = pd.NA
...
objects["log_diameter_mid_km"] = _safe_log10(objects["diameter_mid_km"])
approaches["log_miss_distance_km"] = _safe_log10(approaches["miss_distance_km"])
```
Cells are `Option` values (`none` = `NaN`/`pd.NA`); `math.log10` is the
external library function, kept as a parameter `log10` so the definition
stays executable — the theorems instantiate it with the mathematical
`Real.logb 10`.  Pandas NaN propagation through `+`, `-`, `/` is the
`Option` propagation below, and the `.loc[mid == 0] = pd.NA` mask is the
`mid = 0` test. -/

/-- `_safe_log10` applied to one cell. -/
def safeLog10 {α : Type} [Zero α] [Preorder α]
    [DecidableRel ((· ≤ ·) : α → α → Prop)]
    (log10 : α → α) : Option α → Option α
  | Option.none => Option.none
  | some v => if v ≤ 0 then Option.none else some (log10 v)

/-- `diameter_mid_km = (diameter_km_min + diameter_km_max) / 2` on one row. -/
def diameterMidKm {α : Type} [Add α] [Div α] [OfNat α 2] :
    Option α → Option α → Option α
  | some dmin, some dmax => some ((dmin + dmax) / 2)
  | _, _ => Option.none

/-- `diameter_uncertainty_ratio_km = (max - min) / mid`, masked to `NA`
where `mid == 0`, on one row. -/
def diameterUncertaintyRatioKm {α : Type} [Add α] [Sub α] [Div α]
    [OfNat α 2] [Zero α] [DecidableEq α] (dmin dmax : Option α) : Option α :=
  match diameterMidKm dmin dmax, dmin, dmax with
  | some mid, some a, some b =>
      if mid = 0 then Option.none else some ((b - a) / mid)
  | _, _, _ => Option.none

/-- Claim C7: a `_safe_log10` column is null exactly when its source cell is
missing or `≤ 0`, and carries the mathematical `log10` of the source value
otherwise (exact equality over the real-number idealisation, which is
stronger than the spec's 1e-9 tolerance); the uncertainty ratio is null
whenever the midpoint diameter is zero; and a row with miss distance 0 and
`min = max = 0` diameters yields null for all three derived values — not
zero and not an error. -/
theorem derived_columns_null_rules :
    (∀ v : Option ℝ,
      (safeLog10 (Real.logb 10) v = Option.none ↔
        v = Option.none ∨ ∃ x, v = some x ∧ x ≤ 0) ∧
      (∀ x : ℝ, v = some x → 0 < x →
        safeLog10 (Real.logb 10) v = some (Real.logb 10 x))) ∧
    (∀ dmin dmax : Option ℝ, diameterMidKm dmin dmax = some 0 →
      diameterUncertaintyRatioKm dmin dmax = Option.none) ∧
    (safeLog10 (Real.logb 10) (some (0 : ℝ)) = Option.none ∧
      diameterMidKm (some (0 : ℝ)) (some 0) = some 0 ∧
      diameterUncertaintyRatioKm (some (0 : ℝ)) (some 0) = Option.none ∧
      safeLog10 (Real.logb 10) (diameterMidKm (some (0 : ℝ)) (some 0)) =
        Option.none) := by
  refine ⟨?_, ?_, ?_, ?_, ?_, ?_⟩
  · intro v
    constructor
    · cases v with
      | none => simp [safeLog10]
      | some x =>
        simp only [safeLog10]
        by_cases hx : x ≤ 0
        · simp [hx]
        · simp [hx]
    · intro x hx hpos
      subst hx
      simp [safeLog10, not_le.2 hpos]
  · intro dmin dmax hmid
    rcases dmin with _ | a <;> rcases dmax with _ | b <;>
      simp_all [diameterMidKm, diameterUncertaintyRatioKm]
  · simp [safeLog10]
  · norm_num [diameterMidKm]
  · norm_num [diameterUncertaintyRatioKm, diameterMidKm]
  · norm_num [safeLog10, diameterMidKm]

/-- Witness for claim C7: the source value 100 is positive and gets its
exact log10; the zero-diameter row yields null derived values. -/
theorem derived_columns_null_rules_witness :
    (0 : ℝ) < 100 ∧
    safeLog10 (Real.logb 10) (some (100 : ℝ)) = some (Real.logb 10 100) ∧
    diameterUncertaintyRatioKm (some (0 : ℝ)) (some 0) = Option.none := by
  refine ⟨by norm_num, ?_, ?_⟩
  · exact (derived_columns_null_rules.1 (some (100 : ℝ))).2 100 rfl (by norm_num)
  · exact derived_columns_null_rules.2.1 (some 0) (some 0) (by norm_num [diameterMidKm])

/-! ## `build._first_non_null` and object de-duplication

Source (`build.py`):
```
def _first_non_null(series):
    non_null = series.dropna()
    if non_null.empty:
        return pd.NA
    return non_null.iloc[0]

objects = (
    df[["id"] + object_fields]
    .groupby("id", dropna=False)[object_fields]
    .agg(_first_non_null)
    .reset_index()
)
```
A flattened row is its `id` plus a cell per object attribute; the attribute
set `κ` and the cell value type `α` are kept abstract.  `groupby` forms one
group per distinct `id` (pandas enumerates group keys in sorted order —
modelled by `dedup` then `insertionSort`; the claims do not depend on the
enumeration order) and applies `_first_non_null` to each attribute's column
of the group, the group's rows kept in original row order. -/

structure FlatRow (κ α : Type) where
  id : String
  attrs : κ → Option α

/-- `_first_non_null` on a column: drop the nulls, return the first
remaining value, or `NA` if none remains. -/
def firstNonNull {α : Type} (col : List (Option α)) : Option α :=
  (col.filterMap (fun x => x)).head?

/-- The distinct object ids, in pandas' sorted groupby-key order. -/
def objectIds {κ α : Type} (rows : List (FlatRow κ α)) : List String :=
  ((rows.map (fun r => r.id)).dedup).insertionSort (· ≤ ·)

/-- The aggregated Objects-table row for one id: every attribute is the
first non-null value of that attribute among the id's rows, in original
row order. -/
def objectAgg {κ α : Type} (rows : List (FlatRow κ α)) (i : String) :
    FlatRow κ α :=
  ⟨i, fun j => firstNonNull ((rows.filter (fun r => r.id == i)).map
    (fun r => r.attrs j))⟩

/-- The Objects table produced by the groupby-aggregate above. -/
def objectsTable {κ α : Type} (rows : List (FlatRow κ α)) :
    List (FlatRow κ α) :=
  (objectIds rows).map (objectAgg rows)

/-- `_first_non_null` returns `some v` exactly when some cell of the column
holds `v` and every earlier cell is null: the "first non-null value in
original row order". -/
theorem firstNonNull_eq_some_iff {α : Type} (col : List (Option α)) (v : α) :
    firstNonNull col = some v ↔
      ∃ k : ℕ, col[k]? = some (some v) ∧
        ∀ j, j < k → col[j]? = some Option.none := by
  induction col with
  | nil => simp [firstNonNull]
  | cons hd tl ih =>
    cases hd with
    | none =>
      rw [show firstNonNull (Option.none :: tl) = firstNonNull tl from rfl, ih]
      constructor
      · rintro ⟨k, h1, h2⟩
        refine ⟨k + 1, by simpa using h1, ?_⟩
        intro j hj
        cases j with
        | zero => simp
        | succ j => simpa using h2 j (by omega)
      · rintro ⟨k, h1, h2⟩
        cases k with
        | zero => simp at h1
        | succ k =>
          refine ⟨k, by simpa using h1, ?_⟩
          intro j hj
          simpa using h2 (j + 1) (by omega)
    | some a =>
      rw [show firstNonNull (some a :: tl) = some a from rfl]
      constructor
      · intro h
        refine ⟨0, by simpa using h, ?_⟩
        intro j hj
        omega
      · rintro ⟨k, h1, h2⟩
        cases k with
        | zero => simpa using h1
        | succ k =>
          have := h2 0 (by omega)
          simp at this

/-- Claim C6: the Objects table has exactly one row per unique object id
(no duplicated ids, and an id appears iff some input row carries it), and
each attribute of an object's row is `_first_non_null` of that attribute
over the object's rows in original row order — in particular `some v` only
when some row holds `v` with every earlier row of that object null there. -/
theorem objects_table_first_non_null {κ α : Type}
    (rows : List (FlatRow κ α)) :
    ((objectsTable rows).map (fun r => r.id)).Nodup ∧
    (∀ i, (∃ o ∈ objectsTable rows, o.id = i) ↔ ∃ r ∈ rows, r.id = i) ∧
    (∀ o ∈ objectsTable rows, ∀ j : κ,
      o.attrs j = firstNonNull ((rows.filter (fun r => r.id == o.id)).map
        (fun r => r.attrs j))) ∧
    (∀ o ∈ objectsTable rows, ∀ (j : κ) (v : α), o.attrs j = some v →
      ∃ k : ℕ,
        (((rows.filter (fun r => r.id == o.id)).map (fun r => r.attrs j))[k]? =
          some (some v)) ∧
        ∀ l, l < k →
          ((rows.filter (fun r => r.id == o.id)).map (fun r => r.attrs j))[l]? =
            some Option.none) := by
  have hids : (objectsTable rows).map (fun r => r.id) = objectIds rows := by
    rw [objectsTable, List.map_map]
    have hcomp : ((fun r : FlatRow κ α => r.id) ∘ objectAgg rows) =
        fun i => i := rfl
    rw [hcomp]
    exact List.map_id _
  have hperm : List.Perm (objectIds rows) ((rows.map (fun r => r.id)).dedup) :=
    List.perm_insertionSort _ _
  have hmemids : ∀ i, i ∈ objectIds rows ↔ ∃ r ∈ rows, r.id = i := by
    intro i
    rw [hperm.mem_iff, List.mem_dedup, List.mem_map]
  have hattr : ∀ o ∈ objectsTable rows, ∀ j : κ,
      o.attrs j = firstNonNull ((rows.filter (fun r => r.id == o.id)).map
        (fun r => r.attrs j)) := by
    intro o ho j
    rw [objectsTable, List.mem_map] at ho
    obtain ⟨i, hi, rfl⟩ := ho
    rfl
  refine ⟨?_, ?_, hattr, ?_⟩
  · rw [hids]
    exact hperm.nodup_iff.2 (List.nodup_dedup _)
  · intro i
    rw [← hmemids i]
    constructor
    · rintro ⟨o, ho, rfl⟩
      have : o.id ∈ (objectsTable rows).map (fun r => r.id) :=
        List.mem_map_of_mem _ ho
      rwa [hids] at this
    · intro hi
      rw [← hids] at hi
      rw [List.mem_map] at hi
      obtain ⟨o, ho, rfl⟩ := hi
      exact ⟨o, ho, rfl⟩
  · intro o ho j v hv
    rw [hattr o ho j] at hv
    exact (firstNonNull_eq_some_iff _ _).1 hv

/-- Witness for claim C6: two rows for id "1001", the first fully
populated, the second all-null — the table has exactly one row for "1001"
and it carries the populated value. -/
theorem objects_table_first_non_null_witness :
    ((objectsTable [(⟨"1001", fun _ => some 7⟩ : FlatRow Unit ℕ),
        ⟨"1001", fun _ => Option.none⟩]).map (fun r => r.id)).Nodup ∧
    (objectsTable [(⟨"1001", fun _ => some 7⟩ : FlatRow Unit ℕ),
        ⟨"1001", fun _ => Option.none⟩]).length = 1 ∧
    (∀ o ∈ objectsTable [(⟨"1001", fun _ => some 7⟩ : FlatRow Unit ℕ),
        ⟨"1001", fun _ => Option.none⟩], o.attrs () = some 7) := by
  refine ⟨(objects_table_first_non_null _).1, rfl, ?_⟩
  intro o ho
  rw [(objects_table_first_non_null _).2.2.1 o ho ()]
  have hid : o.id = "1001" := by
    have : o.id ∈ (objectsTable [(⟨"1001", fun _ => some 7⟩ : FlatRow Unit ℕ),
        ⟨"1001", fun _ => Option.none⟩]).map (fun r => r.id) :=
      List.mem_map_of_mem _ ho
    simpa [objectsTable, objectIds, objectAgg, List.insertionSort,
      List.dedup] using this
  rw [hid]
  rfl

/-! ## `build._handle_duplicates`

Source (`build.py`):
```
def _handle_duplicates(approaches):
    duplicate_mask = approaches.duplicated("approach_id", keep=False)
    if not duplicate_mask.any():
        approaches.attrs["duplicate_approach_id_count"] = 0
        return approaches
    duplicate_ids = approaches.loc[duplicate_mask, "approach_id"].unique()
    duplicate_id_count = int(len(duplicate_ids))
    ...
    approaches.attrs["duplicate_approach_id_count"] = duplicate_id_count
    exact_dupes = approaches.duplicated(keep="first")
    if exact_dupes.any():
        ...
        approaches = approaches[~exact_dupes]
    return approaches
```
An approaches row is its `approach_id` paired with the rest of the row
(abstract, with decidable equality so that full-row duplicates can be
detected as pandas does).  The function returns the resulting table and
the recorded `duplicate_approach_id_count`. -/

/-- Rows equal to some strictly earlier row (pandas
`duplicated(keep="first")`) are dropped; `seen` is the set of rows already
passed. -/
def dropExactDupesAux {γ : Type} [DecidableEq γ] (seen : List γ) :
    List γ → List γ
  | [] => []
  | r :: rs =>
      if r ∈ seen then dropExactDupesAux seen rs
      else r :: dropExactDupesAux (r :: seen) rs

/-- `approaches[~approaches.duplicated(keep="first")]`. -/
def dropExactDupes {γ : Type} [DecidableEq γ] (l : List γ) : List γ :=
  dropExactDupesAux [] l

/-- The number of distinct `approach_id` values occurring in more than one
row (`len(approaches.loc[duplicate_mask, "approach_id"].unique())`; pandas
`.unique` enumerates first occurrences — only the length is used, so
`dedup`'s enumeration order is irrelevant). -/
def duplicateIdCount {β : Type} [DecidableEq β]
    (approaches : List (String × β)) : ℕ :=
  (((approaches.filter (fun r =>
      decide (2 ≤ approaches.countP (fun r2 => r2.1 == r.1)))).map
    Prod.fst).dedup).length

/-- `_handle_duplicates`: returns the de-duplicated table and the recorded
duplicate-id count. -/
def handleDuplicates {β : Type} [DecidableEq β]
    (approaches : List (String × β)) : List (String × β) × ℕ :=
  if approaches.any (fun r =>
      decide (2 ≤ approaches.countP (fun r2 => r2.1 == r.1))) then
    (dropExactDupes approaches, duplicateIdCount approaches)
  else (approaches, 0)

theorem dropExactDupesAux_sublist {γ : Type} [DecidableEq γ]
    (l : List γ) : ∀ seen, (dropExactDupesAux seen l).Sublist l := by
  induction l with
  | nil => intro seen; simp [dropExactDupesAux]
  | cons r rs ih =>
    intro seen
    rw [dropExactDupesAux]
    by_cases hr : r ∈ seen
    · simp only [if_pos hr]
      exact (ih seen).cons r
    · simp only [if_neg hr]
      exact (ih (r :: seen)).cons₂ r

theorem dropExactDupesAux_mem {γ : Type} [DecidableEq γ]
    (l : List γ) : ∀ seen x,
      x ∈ dropExactDupesAux seen l ↔ (x ∈ l ∧ x ∉ seen) := by
  induction l with
  | nil => intro seen x; simp [dropExactDupesAux]
  | cons r rs ih =>
    intro seen x
    rw [dropExactDupesAux]
    by_cases hr : r ∈ seen
    · rw [if_pos hr, ih seen x]
      constructor
      · rintro ⟨hx, hxs⟩
        exact ⟨List.mem_cons_of_mem _ hx, hxs⟩
      · rintro ⟨hx, hxs⟩
        rcases List.mem_cons.1 hx with rfl | hx
        · exact absurd hr hxs
        · exact ⟨hx, hxs⟩
    · rw [if_neg hr]
      constructor
      · intro hx
        rcases List.mem_cons.1 hx with rfl | hx
        · exact ⟨List.mem_cons_self _ _, hr⟩
        · obtain ⟨h1, h2⟩ := (ih (r :: seen) x).1 hx
          exact ⟨List.mem_cons_of_mem _ h1,
            fun hs => h2 (List.mem_cons_of_mem _ hs)⟩
      · rintro ⟨hx, hxs⟩
        rcases List.mem_cons.1 hx with rfl | hx
        · exact List.mem_cons_self _ _
        · by_cases hxr : x = r
          · subst hxr
            exact List.mem_cons_self _ _
          · exact List.mem_cons_of_mem _ ((ih (r :: seen) x).2
              ⟨hx, fun hs => by
                rcases List.mem_cons.1 hs with h | h
                · exact hxr h
                · exact hxs h⟩)

theorem dropExactDupesAux_nodup {γ : Type} [DecidableEq γ]
    (l : List γ) : ∀ seen, (dropExactDupesAux seen l).Nodup := by
  induction l with
  | nil => intro seen; simp [dropExactDupesAux]
  | cons r rs ih =>
    intro seen
    rw [dropExactDupesAux]
    by_cases hr : r ∈ seen
    · rw [if_pos hr]
      exact ih seen
    · rw [if_neg hr]
      refine List.nodup_cons.2 ⟨?_, ih (r :: seen)⟩
      intro hmem
      exact ((dropExactDupesAux_mem rs _ r).1 hmem).2 (List.mem_cons_self _ _)

theorem dropExactDupesAux_of_nodup {γ : Type} [DecidableEq γ]
    (l : List γ) : ∀ seen, l.Nodup → (∀ x ∈ l, x ∉ seen) →
      dropExactDupesAux seen l = l := by
  induction l with
  | nil => intro seen _ _; rfl
  | cons r rs ih =>
    intro seen hnd hdisj
    rw [dropExactDupesAux,
      if_neg (hdisj r (List.mem_cons_self _ _))]
    rw [ih (r :: seen) (List.nodup_cons.1 hnd).2]
    intro x hx
    intro hxs
    rcases List.mem_cons.1 hxs with rfl | hxs
    · exact (List.nodup_cons.1 hnd).1 hx
    · exact hdisj x (List.mem_cons_of_mem _ hx) hxs

/-- If no `approach_id` occurs in two rows, no full row occurs twice. -/
theorem nodup_of_no_duplicate_id {β : Type} [DecidableEq β]
    (approaches : List (String × β))
    (h : approaches.any (fun r =>
      decide (2 ≤ approaches.countP (fun r2 => r2.1 == r.1))) = false) :
    approaches.Nodup := by
  by_contra hnd
  obtain ⟨a, ha⟩ := List.exists_duplicate_iff_not_nodup.2 hnd
  have hsub : [a, a].Sublist approaches := List.duplicate_iff_sublist.1 ha
  have h2 : 2 ≤ approaches.countP (fun r2 => r2.1 == a.1) := by
    have hc := hsub.countP_le (p := fun r2 => r2.1 == a.1)
    simpa using hc
  have hmem : a ∈ approaches := hsub.subset (List.mem_cons_self _ _)
  have := List.any_eq_false.1 h a hmem
  simp only [decide_eq_true_eq, not_le] at this
  omega

/-- Claim C1 (amended): after de-duplication the Approaches table is exactly
the input with full-row duplicates of earlier rows removed: it contains no
two identical rows, is an order-preserving subsequence of the input, loses
no distinct row — so two rows sharing an `approach_id` but differing in
content are both preserved — and the duplicate-id count is recorded
regardless of whether any row was dropped. -/
theorem handle_duplicates_dedup {β : Type} [DecidableEq β]
    (approaches : List (String × β)) :
    (handleDuplicates approaches).1 = dropExactDupes approaches ∧
    (handleDuplicates approaches).1.Nodup ∧
    (handleDuplicates approaches).1.Sublist approaches ∧
    (∀ r, r ∈ (handleDuplicates approaches).1 ↔ r ∈ approaches) ∧
    (handleDuplicates approaches).2 = duplicateIdCount approaches := by
  have hmem : ∀ r, r ∈ dropExactDupes approaches ↔ r ∈ approaches := by
    intro r
    rw [dropExactDupes, dropExactDupesAux_mem]
    simp
  by_cases hany : approaches.any (fun r =>
      decide (2 ≤ approaches.countP (fun r2 => r2.1 == r.1))) = true
  · have h1 : handleDuplicates approaches =
        (dropExactDupes approaches, duplicateIdCount approaches) := by
      rw [handleDuplicates, if_pos hany]
    rw [h1]
    exact ⟨rfl, dropExactDupesAux_nodup _ _,
      dropExactDupesAux_sublist _ _, hmem, rfl⟩
  · have hfalse : approaches.any (fun r =>
        decide (2 ≤ approaches.countP (fun r2 => r2.1 == r.1))) = false := by
      simpa using hany
    have hnd : approaches.Nodup := nodup_of_no_duplicate_id approaches hfalse
    have heq : dropExactDupes approaches = approaches :=
      dropExactDupesAux_of_nodup approaches [] hnd (by simp)
    have h1 : handleDuplicates approaches = (approaches, 0) := by
      rw [handleDuplicates, if_neg (by simp [hfalse])]
    have hcount : duplicateIdCount approaches = 0 := by
      rw [duplicateIdCount]
      have : approaches.filter (fun r =>
          decide (2 ≤ approaches.countP (fun r2 => r2.1 == r.1))) = [] := by
        rw [List.filter_eq_nil_iff]
        intro a ha
        have := List.any_eq_false.1 hfalse a ha
        simpa using this
      rw [this]
      rfl
    rw [h1, hcount, heq]
    exact ⟨rfl, hnd, List.Sublist.refl _, fun r => Iff.rfl, rfl⟩

/-- Counterexample to claim C1 as stated: two rows with the same
`approach_id` (as produced by two feed rows with equal object id `1001` and
equal epoch `5` but different velocities, whose ids are both `"1001_5"`)
differ in content, so neither is an exact full-row duplicate; both survive
`_handle_duplicates`, and `approach_id` is not unique in the final table. -/
theorem handle_duplicates_id_not_unique :
    ¬ (((handleDuplicates [("1001_5", (0 : ℕ)), ("1001_5", 1)]).1.map
      Prod.fst).Nodup) := by
  decide

/-! ## `build.build_tables` failure mode

Source (`build.py`):
```
REQUIRED_COLUMNS = ["date", "id", ..., "orbiting_body"]

def build_tables(input_path, outdir):
    df = pd.read_csv(input_path)
    if df.empty:
        raise ValueError(f"Input CSV is empty: {input_path}")
    missing = sorted(set(REQUIRED_COLUMNS) - set(df.columns))
    if missing:
        raise ValueError(f"Input CSV missing required columns: ...")
    objects, approaches = process_dataframe(df)
    outdir.mkdir(...)
    objects.to_parquet(...); objects.to_csv(...)
    approaches.to_parquet(...); approaches.to_csv(...)
    aggregates.to_parquet(...)
    write_metadata(metadata, ...)
```
The parsed CSV is its column list plus its rows (row content abstract: only
emptiness matters here).  The filesystem is the list of output files
written; a raised exception propagates before any write, leaving it
untouched.  `sorted(set(...) - set(...))` affects only the message text, so
the missing-column set is modelled as a filter of `REQUIRED_COLUMNS`. -/

def REQUIRED_COLUMNS : List String :=
  ["date", "id", "neo_reference_id", "name", "nasa_jpl_url",
   "absolute_magnitude_h", "is_potentially_hazardous_asteroid",
   "is_sentry_object", "diameter_km_min", "diameter_km_max",
   "diameter_m_min", "diameter_m_max", "close_approach_date",
   "close_approach_date_full", "epoch_date_close_approach",
   "velocity_km_s", "velocity_km_h", "velocity_mph",
   "miss_distance_astronomical", "miss_distance_lunar", "miss_distance_km",
   "miss_distance_miles", "orbiting_body"]

structure InputCsv (ρ : Type) where
  columns : List String
  rows : List ρ

/-- `set(REQUIRED_COLUMNS) - set(df.columns)`. -/
def missingColumns (cols : List String) : List String :=
  REQUIRED_COLUMNS.filter (fun c => decide (c ∉ cols))

/-- The files `build_tables` writes on the success path. -/
def OUTPUT_FILES : List String :=
  ["objects.parquet", "objects.csv", "approaches.parquet", "approaches.csv",
   "aggregates.parquet", "metadata.json"]

/-- `build_tables` over a parsed CSV `df` and a filesystem `fs` (list of
files already present): returns the outcome (raised message or success) and
the resulting filesystem.  The empty-input and missing-column checks run
before any output is written, mirroring the source's statement order; the
success path is summarised as writing the six output files. -/
def buildTables {ρ : Type} (df : InputCsv ρ) (fs : List String) :
    Except String Unit × List String :=
  if df.rows.isEmpty then (.error "Input CSV is empty", fs)
  else if missingColumns df.columns ≠ [] then
    (.error ("Input CSV missing required columns: " ++
      String.intercalate ", " (missingColumns df.columns)), fs)
  else (.ok (), fs ++ OUTPUT_FILES)

/-- Claim C9: whenever the input table is empty or lacks a required column,
`build_tables` raises and the filesystem is left exactly as it was — no
objects, approaches, aggregates or metadata file is written. -/
theorem build_tables_fails_atomically {ρ : Type} (df : InputCsv ρ)
    (fs : List String)
    (h : df.rows = [] ∨ ∃ c ∈ REQUIRED_COLUMNS, c ∉ df.columns) :
    ∃ msg, buildTables df fs = (.error msg, fs) := by
  rcases h with hrows | ⟨c, hc, hcc⟩
  · refine ⟨"Input CSV is empty", ?_⟩
    rw [buildTables, if_pos (by simp [hrows])]
  · by_cases hrows : df.rows.isEmpty
    · refine ⟨"Input CSV is empty", ?_⟩
      rw [buildTables, if_pos hrows]
    · have hmiss : missingColumns df.columns ≠ [] := by
        intro hnil
        have : c ∈ missingColumns df.columns := by
          rw [missingColumns, List.mem_filter]
          exact ⟨hc, by simpa using hcc⟩
        rw [hnil] at this
        simp at this
      refine ⟨"Input CSV missing required columns: " ++
        String.intercalate ", " (missingColumns df.columns), ?_⟩
      rw [buildTables, if_neg (by simpa using hrows), if_pos hmiss]

/-- Witness for claim C9: an empty input, and a non-empty input missing the
required column `id`, both raise and write nothing. -/
theorem build_tables_fails_atomically_witness :
    (∃ msg, buildTables (⟨REQUIRED_COLUMNS, []⟩ : InputCsv ℕ) ["other.txt"] =
      (.error msg, ["other.txt"])) ∧
    (∃ msg, buildTables (⟨["date"], [3]⟩ : InputCsv ℕ) [] =
      (.error msg, [])) :=
  ⟨build_tables_fails_atomically _ _ (Or.inl rfl),
   build_tables_fails_atomically _ _ (Or.inr (by decide))⟩

/-! ## `build._stable_suffix` and `approach_id`

Source (`build.py`):
```
def _stable_suffix(row):
    parts = [
        str(row.get("id", "")),
        str(row.get("close_approach_date", "")),
        str(row.get("close_approach_date_full", "")),
        str(row.get("miss_distance_km", "")),
        str(row.get("velocity_km_s", "")),
    ]
    digest = hashlib.md5("|".join(parts).encode("utf-8")).hexdigest()
    return digest[:8]
```
and, inside `process_dataframe`:
```
epoch_str = epoch_series.apply(
    lambda value: str(int(value)) if pd.notna(value) else None)
suffix = epoch_str.fillna(df.apply(_stable_suffix, axis=1))
df["approach_id"] = df["id"].astype(str) + "_" + suffix
```
The external `hashlib.md5` is embedded below as the standard MD5 algorithm
(RFC 1321) over byte lists (bytes as `ℕ < 256`), with `.encode("utf-8")`
as the standard UTF-8 encoding of the string's characters.  The row fields
hashed by `_stable_suffix` are carried as the strings `str(...)` produces;
the epoch is carried as its integer value (`str(int(value))` is
`toString`). -/

/-- UTF-8 encoding of one character. -/
def charUtf8 (c : Char) : List ℕ :=
  let n := c.toNat
  if n < 0x80 then [n]
  else if n < 0x800 then [0xC0 + n / 0x40, 0x80 + n % 0x40]
  else if n < 0x10000 then
    [0xE0 + n / 0x1000, 0x80 + (n / 0x40) % 0x40, 0x80 + n % 0x40]
  else
    [0xF0 + n / 0x40000, 0x80 + (n / 0x1000) % 0x40,
     0x80 + (n / 0x40) % 0x40, 0x80 + n % 0x40]

/-- `s.encode("utf-8")` as a byte list. -/
def utf8Bytes (s : String) : List ℕ :=
  (s.data.map charUtf8).flatten

/-- MD5 per-operation left-rotation amounts. -/
def md5S : List ℕ :=
  [7, 12, 17, 22, 7, 12, 17, 22, 7, 12, 17, 22, 7, 12, 17, 22,
   5, 9, 14, 20, 5, 9, 14, 20, 5, 9, 14, 20, 5, 9, 14, 20,
   4, 11, 16, 23, 4, 11, 16, 23, 4, 11, 16, 23, 4, 11, 16, 23,
   6, 10, 15, 21, 6, 10, 15, 21, 6, 10, 15, 21, 6, 10, 15, 21]

/-- MD5 sine-derived constants `T[i] = floor(2^32 * abs(sin(i+1)))`. -/
def md5K : List ℕ :=
  [0xd76aa478, 0xe8c7b756, 0x242070db, 0xc1bdceee,
   0xf57c0faf, 0x4787c62a, 0xa8304613, 0xfd469501,
   0x698098d8, 0x8b44f7af, 0xffff5bb1, 0x895cd7be,
   0x6b901122, 0xfd987193, 0xa679438e, 0x49b40821,
   0xf61e2562, 0xc040b340, 0x265e5a51, 0xe9b6c7aa,
   0xd62f105d, 0x02441453, 0xd8a1e681, 0xe7d3fbc8,
   0x21e1cde6, 0xc33707d6, 0xf4d50d87, 0x455a14ed,
   0xa9e3e905, 0xfcefa3f8, 0x676f02d9, 0x8d2a4c8a,
   0xfffa3942, 0x8771f681, 0x6d9d6122, 0xfde5380c,
   0xa4beea44, 0x4bdecfa9, 0xf6bb4b60, 0xbebfbc70,
   0x289b7ec6, 0xeaa127fa, 0xd4ef3085, 0x04881d05,
   0xd9d4d039, 0xe6db99e5, 0x1fa27cf8, 0xc4ac5665,
   0xf4292244, 0x432aff97, 0xab9423a7, 0xfc93a039,
   0x655b59c3, 0x8f0ccc92, 0xffeff47d, 0x85845dd1,
   0x6fa87e4f, 0xfe2ce6e0, 0xa3014314, 0x4e0811a1,
   0xf7537e82, 0xbd3af235, 0x2ad7d2bb, 0xeb86d391]

/-- 32-bit left rotation over `ℕ` (inputs `< 2^32`). -/
def rotl32 (x s : ℕ) : ℕ :=
  ((x <<< s) ||| (x >>> (32 - s))) % 4294967296

/-- The MD5 round function and message-word index for operation `i`
(bitwise NOT on 32 bits is xor with `0xFFFFFFFF`). -/
def md5F (i b c d : ℕ) : ℕ × ℕ :=
  if i < 16 then ((b &&& c) ||| ((b ^^^ 0xFFFFFFFF) &&& d), i)
  else if i < 32 then ((d &&& b) ||| ((d ^^^ 0xFFFFFFFF) &&& c), (5 * i + 1) % 16)
  else if i < 48 then (b ^^^ c ^^^ d, (3 * i + 5) % 16)
  else (c ^^^ (b ||| (d ^^^ 0xFFFFFFFF)), (7 * i) % 16)

/-- One MD5 operation on the state `(A, B, C, D)` with message words `m`. -/
def md5Round (m : List ℕ) (st : ℕ × ℕ × ℕ × ℕ) (i : ℕ) : ℕ × ℕ × ℕ × ℕ :=
  let fg := md5F i st.2.1 st.2.2.1 st.2.2.2
  let f2 := (fg.1 + st.1 + md5K.getD i 0 + m.getD fg.2 0) % 4294967296
  (st.2.2.2,
   (st.2.1 + rotl32 f2 (md5S.getD i 0)) % 4294967296,
   st.2.1, st.2.2.1)

/-- The 16 little-endian 32-bit words of one 64-byte block. -/
def leWords (block : List ℕ) : List ℕ :=
  (List.range 16).map (fun j =>
    block.getD (4 * j) 0 + block.getD (4 * j + 1) 0 * 256 +
      block.getD (4 * j + 2) 0 * 65536 + block.getD (4 * j + 3) 0 * 16777216)

/-- Process one 64-byte block: 64 operations, then add into the running
state, all mod `2^32`. -/
def md5ProcessBlock (st : ℕ × ℕ × ℕ × ℕ) (m : List ℕ) : ℕ × ℕ × ℕ × ℕ :=
  let r := (List.range 64).foldl (md5Round m) st
  ((st.1 + r.1) % 4294967296, (st.2.1 + r.2.1) % 4294967296,
   (st.2.2.1 + r.2.2.1) % 4294967296, (st.2.2.2 + r.2.2.2) % 4294967296)

/-- MD5 padding: append `0x80`, zero-pad to 56 mod 64, then the original
bit length as 8 little-endian bytes (mod `2^64`). -/
def md5Pad (msg : List ℕ) : List ℕ :=
  let L := msg.length
  msg ++ [0x80] ++ List.replicate ((119 - L % 64) % 64) 0 ++
    (List.range 8).map (fun j => (((8 * L) % 18446744073709551616) >>> (8 * j)) % 256)

/-- The four bytes of a 32-bit word, little-endian. -/
def wordLeBytes (w : ℕ) : List ℕ :=
  [w % 256, (w >>> 8) % 256, (w >>> 16) % 256, (w >>> 24) % 256]

/-- The 16-byte MD5 digest of a byte list. -/
def md5Digest (msg : List ℕ) : List ℕ :=
  let padded := md5Pad msg
  let final := (List.range (padded.length / 64)).foldl
    (fun st i => md5ProcessBlock st (leWords ((padded.drop (64 * i)).take 64)))
    (0x67452301, 0xefcdab89, 0x98badcfe, 0x10325476)
  wordLeBytes final.1 ++ wordLeBytes final.2.1 ++
    wordLeBytes final.2.2.1 ++ wordLeBytes final.2.2.2

/-- Lower-case hex digit. -/
def hexChar (n : ℕ) : Char :=
  "0123456789abcdef".data.getD n '0'

/-- Two lower-case hex digits of one byte. -/
def byteHex (b : ℕ) : List Char :=
  [hexChar (b / 16), hexChar (b % 16)]

/-- `hashlib.md5(msg).hexdigest()` as a character list. -/
def md5HexChars (msg : List ℕ) : List Char :=
  ((md5Digest msg).map byteHex).flatten

/-- The row fields consumed by `_stable_suffix` / the `approach_id`
derivation.  The five string fields hold `str(...)` of the respective cells;
the epoch holds `int(value)` when the cell is non-null. -/
structure ApproachSrcRow where
  id : String
  close_approach_date : String
  close_approach_date_full : String
  miss_distance_km : String
  velocity_km_s : String
  epoch_date_close_approach : Option ℤ

/-- `_stable_suffix`: the first 8 hex characters of the MD5 digest of the
`"|"`-joined five fields. -/
def stableSuffix (row : ApproachSrcRow) : String :=
  ⟨(md5HexChars (utf8Bytes (String.intercalate "|"
    [row.id, row.close_approach_date, row.close_approach_date_full,
     row.miss_distance_km, row.velocity_km_s]))).take 8⟩

/-- `approach_id`: `{id}_{int(epoch)}` when the epoch is present, else
`{id}_{_stable_suffix(row)}`. -/
def approachId (row : ApproachSrcRow) : String :=
  row.id ++ "_" ++
    (match row.epoch_date_close_approach with
     | some v => toString v
     | Option.none => stableSuffix row)

theorem length_flatten_map_byteHex (l : List ℕ) :
    ((l.map byteHex).flatten).length = 2 * l.length := by
  induction l with
  | nil => rfl
  | cons a as ih =>
    simp only [List.map_cons, List.flatten_cons, List.length_append, ih,
      List.length_cons, byteHex]
    simp
    omega

theorem md5Digest_length (msg : List ℕ) : (md5Digest msg).length = 16 := by
  rw [md5Digest]
  simp [wordLeBytes]

theorem md5HexChars_length (msg : List ℕ) : (md5HexChars msg).length = 32 := by
  rw [md5HexChars, length_flatten_map_byteHex, md5Digest_length]

theorem stableSuffix_length (row : ApproachSrcRow) :
    (stableSuffix row).length = 8 := by
  show ((md5HexChars (utf8Bytes (String.intercalate "|"
    [row.id, row.close_approach_date, row.close_approach_date_full,
     row.miss_distance_km, row.velocity_km_s]))).take 8).length = 8
  rw [List.length_take, md5HexChars_length]
  rfl

/-- Claim C5: `approach_id` is `{object_id}_{epoch}` whenever the epoch is
present, and otherwise `{object_id}_{suffix}` where the suffix is the
8-character stable (MD5-based) hash of (object id, close approach date,
full timestamp, miss distance in km, velocity in km/s); the derivation is a
function of exactly those fields, so identical inputs give identical ids. -/
theorem approach_id_derivation (row : ApproachSrcRow) :
    (∀ v : ℤ, row.epoch_date_close_approach = some v →
      approachId row = row.id ++ "_" ++ toString v) ∧
    (row.epoch_date_close_approach = Option.none →
      approachId row = row.id ++ "_" ++ stableSuffix row ∧
        (stableSuffix row).length = 8) ∧
    (∀ row2 : ApproachSrcRow, row.id = row2.id →
      row.close_approach_date = row2.close_approach_date →
      row.close_approach_date_full = row2.close_approach_date_full →
      row.miss_distance_km = row2.miss_distance_km →
      row.velocity_km_s = row2.velocity_km_s →
      row.epoch_date_close_approach = row2.epoch_date_close_approach →
      approachId row = approachId row2) := by
  refine ⟨?_, ?_, ?_⟩
  · intro v hv
    rw [approachId, hv]
  · intro h
    refine ⟨by rw [approachId, h], stableSuffix_length row⟩
  · intro row2 h1 h2 h3 h4 h5 h6
    have hs : stableSuffix row = stableSuffix row2 := by
      rw [stableSuffix, stableSuffix, h1, h2, h3, h4, h5]
    rw [approachId, approachId, h1, h6, hs]

/-- Witness for claim C5: a concrete row with epoch 1234567890 gets the
epoch-based id; the same row without an epoch gets the hash-based id with
an 8-character suffix. -/
theorem approach_id_derivation_witness :
    approachId ⟨"1001", "2029-04-13", "2029-04-13 00:00", "0.0", "12.3",
        some 1234567890⟩ = "1001" ++ "_" ++ toString (1234567890 : ℤ) ∧
    (approachId ⟨"1001", "2029-04-13", "2029-04-13 00:00", "0.0", "12.3",
        Option.none⟩ =
      "1001" ++ "_" ++ stableSuffix ⟨"1001", "2029-04-13",
        "2029-04-13 00:00", "0.0", "12.3", Option.none⟩ ∧
      (stableSuffix ⟨"1001", "2029-04-13", "2029-04-13 00:00", "0.0", "12.3",
        Option.none⟩).length = 8) :=
  ⟨(approach_id_derivation _).1 1234567890 rfl,
   (approach_id_derivation _).2.1 rfl⟩
